import Mathlib

/-!
Verification development for the streaming reconciliation engine of the
characterQuiltTools chat client.

The definitions below are a shallow embedding of the relevant TypeScript
source:

* the accuracy-first chat hook (the second variant in
  src/src/hooks/useChat.ts): its per-chunk processor
  processStreamingChunk, the buffering helpers addToBuffer /
  appendToLastMessage / flushBufferedContent, the tool-call upsert
  updateToolCall, the finalizer markStreamingComplete, and the
  finalization paths of handleUserMessage (natural completion and
  cancellation);
* the stream reader processStreamingResponse and the sanitizer
  sanitizeStreamingText (the first variant in src/src/utils/api.ts);
* the tool-call lifecycle of RobustStreamingClient (the second variant
  in src/src/utils/api.ts): processRobustStream, processTextWithAccuracy,
  extractToolCall, completeToolCall and their pattern helpers.

JavaScript strings are modelled as Lean strings / lists of characters;
regular-expression tests are implemented as explicit scanners with the
same matching semantics on newline-free line input; Date timestamps are
modelled as presence flags; the id generator (Date.now plus randomness)
is modelled as a fresh counter.  React setState updates are sequential
in the source (one session processes chunks strictly in order), so state
is threaded explicitly.
-/

namespace CQT

abbrev Chars := List Char

/-- Substring containment, the model of JavaScript String.prototype.includes. -/
def hasSub (s pat : String) : Bool := decide (pat.data <:+: s.data)

/-- Whitespace for the model of JavaScript trim and regex \s (ASCII part). -/
def isWS (c : Char) : Bool :=
  c = ' ' || c = '\t' || c = '\n' || c = '\r' || c = '\x0b' || c = '\x0c'

/-- Word character, the model of regex \w. -/
def isWordChar (c : Char) : Bool := c.isAlphanum || c = '_'

def ciChars (l : Chars) : Chars := l.map Char.toLower

/-- Case-insensitive literal prefix test at the current position. -/
def ciPrefix (pat : String) (l : Chars) : Bool :=
  (ciChars pat.data).isPrefixOf (ciChars l)

def allWS (l : Chars) : Bool := l.all isWS

/-- The model of JavaScript String.prototype.trim. -/
def trimChars (l : Chars) : Chars :=
  ((l.dropWhile isWS).reverse.dropWhile isWS).reverse

/-- Runs a position predicate at every suffix (regex search anywhere in the text). -/
def scanAny (p : Chars → Bool) : Chars → Bool
  | [] => p []
  | l@(_ :: t) => p l || scanAny p t

/-- The rest of the text after the first occurrence of a character. -/
def afterFirst (e : Char) : Chars → Option Chars
  | [] => none
  | c :: t => if c = e then some t else afterFirst e t

/-- Case-insensitive substring test for any of the given keywords. -/
def anyKwCi (kws : List String) (l : Chars) : Bool :=
  kws.any fun kw => scanAny (fun s => ciPrefix kw s) l

/-- After regex \s* : the next character must begin a \w+ (maximal
whitespace skip is equivalent because a word character is not whitespace). -/
def wsThenWordAfter (l : Chars) : Bool :=
  match l.dropWhile isWS with
  | c :: _ => isWordChar c
  | [] => false

/-- After a case-insensitive literal: the remaining text. -/
def afterCiLit (lit : String) (l : Chars) : Option Chars :=
  if ciPrefix lit l then some (l.drop lit.length) else none

/-- After regex \s+ (at least one whitespace character, then the rest).
Maximal skip is equivalent whenever the following literal starts with a
non-whitespace character. -/
def afterWsPlus (l : Chars) : Option Chars :=
  let w := l.takeWhile isWS
  if 1 ≤ w.length then some (l.drop w.length) else none

def afterWsStar (l : Chars) : Chars := l.dropWhile isWS

/- ----------------------------------------------------------------------
Data model: ToolCall, BufferedContent and the per-session chat state of
the accuracy-first hook (src/src/hooks/useChat.ts, second variant).
The session owns a single streaming agent message; `displayed` is its
content, `msgToolCalls` its toolCalls field.
---------------------------------------------------------------------- -/

inductive ToolStatus
  | pending
  | executing
  | completed
  | failed
deriving DecidableEq, Repr

structure ToolCall where
  id : Nat
  toolName : String
  status : ToolStatus
  params : List (String × String) := []
  result : Option String := none
  error : Option String := none
  hasEndTime : Bool := false
deriving DecidableEq, Repr

structure BufferedContent where
  chunks : List String
  isBuffering : Bool
  hasActiveToolCalls : Bool
deriving DecidableEq, Repr

structure SessionState where
  displayed : String
  activeToolCalls : List ToolCall
  msgToolCalls : List ToolCall
  buffered : BufferedContent
  nextId : Nat
deriving DecidableEq, Repr

def emptyBuffer : BufferedContent := ⟨[], false, false⟩

/-- The session state set up by handleUserMessage before streaming starts:
empty agent placeholder message, no active tool calls, empty buffer. -/
def initialState : SessionState := ⟨"", [], [], emptyBuffer, 0⟩

/- ----------------------------------------------------------------------
useChat.ts helpers.
---------------------------------------------------------------------- -/

/-- appendToLastMessage (useChat.ts:221-241): appends content to the
streaming agent message unless buffering is active with active tool
calls.  Returns the new state and the list of content deliveries made. -/
def appendToLastMessage (st : SessionState) (content : String) :
    SessionState × List String :=
  if st.buffered.isBuffering && st.buffered.hasActiveToolCalls then (st, [])
  else ({ st with displayed := st.displayed ++ content }, [content])

/-- flushBufferedContent (useChat.ts:247-296): joins the pending chunks,
appends them to the agent message and resets the buffer state. -/
def flushBufferedContent (st : SessionState) : SessionState × List String :=
  if st.buffered.chunks = [] then ({ st with buffered := emptyBuffer }, [])
  else
    let text := String.join st.buffered.chunks
    ({ st with displayed := st.displayed ++ text, buffered := emptyBuffer }, [text])

/-- The map applied by markStreamingComplete to each active tool call:
a still-executing call is forced to completed with an end time and the
JavaScript default result (toolCall.result || 'Execution completed'). -/
def forceComplete (tc : ToolCall) : ToolCall :=
  if tc.status = ToolStatus.executing then
    { tc with
      status := ToolStatus.completed
      hasEndTime := true
      result := some (match tc.result with
        | some r => if r = "" then "Execution completed" else r
        | none => "Execution completed") }
  else tc

/-- markStreamingComplete (useChat.ts:318-362): forces completion of the
remaining executing tool calls, writes them to the message, clears the
active set and the buffer. -/
def markStreamingComplete (st : SessionState) : SessionState :=
  { st with
    msgToolCalls := st.activeToolCalls.map forceComplete
    activeToolCalls := []
    buffered := emptyBuffer }

/-- Replace the first tool call with the same id, or push (the
findIndex/push logic of updateToolCall). -/
def upsert : List ToolCall → ToolCall → List ToolCall
  | [], tc => [tc]
  | t :: ts, tc => if t.id = tc.id then tc :: ts else t :: upsert ts tc

/-- updateToolCall (useChat.ts:368-405): upserts the tool call, recomputes
the active-executing flag, and mirrors the non-pending calls into the
streaming message. -/
def updateToolCallOp (st : SessionState) (tc : ToolCall) : SessionState :=
  let active := upsert st.activeToolCalls tc
  let hasActive := active.any (fun t => t.status = ToolStatus.executing)
  { st with
    activeToolCalls := active
    msgToolCalls := active.filter (fun t => t.status ≠ ToolStatus.pending)
    buffered := { st.buffered with hasActiveToolCalls := hasActive } }

/- ----------------------------------------------------------------------
processStreamingChunk (useChat.ts:443-713).
---------------------------------------------------------------------- -/

/-- Regex test /\*\*\w+\s*Tool/i used by the tool-indicator check:
after the text "**", at least one word character, optional whitespace,
then "Tool" case-insensitively. -/
def wordThenWsTool (t : Chars) : Bool :=
  let m := (t.takeWhile isWordChar).length
  (List.range (m + 1)).any fun k =>
    decide (1 ≤ k) && ciPrefix "tool" (afterWsStar (t.drop k))

def reStarStarTool : Chars → Bool
  | [] => false
  | c :: t => (c = '*' && t.head? == some '*' && wordThenWsTool t.tail) || reStarStarTool t

/-- Regex test /Executing\s+\w+/i. -/
def reExecutingWsWord : Chars → Bool
  | [] => false
  | l@(_ :: t) =>
      (ciPrefix "executing" l &&
        (match afterWsPlus (l.drop 9) with
         | some r => (match r with | c :: _ => isWordChar c | [] => false)
         | none => false)) ||
      reExecutingWsWord t

/-- The aggressive tool-indicator check at the top of processStreamingChunk
(useChat.ts:448-458). -/
def hasToolIndicators (chunk : String) : Bool :=
  hasSub chunk "🔧" || hasSub chunk "**Executing" || hasSub chunk "Tool:**" ||
  hasSub chunk "**Result:**" || hasSub chunk "**Error:**" || hasSub chunk "✅" ||
  hasSub chunk "❌" || hasSub chunk "📋" ||
  reStarStarTool chunk.data || reExecutingWsWord chunk.data

/-- Guard of the tool-start branch (useChat.ts:503). -/
def toolStartGuard (c : String) : Bool :=
  hasSub c "🔧 **Executing Tool:**" || (hasSub c "🔧" && hasSub c "Executing Tool")

/-- Guard of the tool-result branch (useChat.ts:531). -/
def resultGuard (c : String) : Bool :=
  hasSub c "✅ **Result:**" || (hasSub c "✅" && hasSub c "Result")

/-- Guard of the tool-error branch (useChat.ts:576). -/
def errorGuard (c : String) : Bool :=
  hasSub c "❌ **Error:**" || (hasSub c "❌" && hasSub c "Error")

/-- Guard of the research-marker branch (useChat.ts:631-633). -/
def researchGuard (c : String) : Bool :=
  hasSub c "📋 **Research Iteration" || hasSub c "✨ **Research complete**" ||
  hasSub c "🔄 **Continuing research**"

/-- The tool-indicator branch (useChat.ts:461-500): retroactively moves any
already-displayed agent content into the buffer, or just buffers the chunk,
and turns on both buffering flags. -/
def indicatorBranch (st : SessionState) (chunk : String) : SessionState :=
  if st.displayed ≠ "" then
    { st with displayed := "", buffered := ⟨[st.displayed, chunk], true, true⟩ }
  else
    { st with buffered := ⟨st.buffered.chunks ++ [chunk], true, true⟩ }

/-- The buffer push shared by the result, error and research branches
(chunks := [...prev.chunks, chunk], flags untouched). -/
def bufferAppendOnly (st : SessionState) (chunk : String) : SessionState :=
  { st with buffered := { st.buffered with chunks := st.buffered.chunks ++ [chunk] } }

/-- The parameter-list parse of the tool-start branch: comma-separated
key=value pairs, each side trimmed. -/
def parseParams (l : Chars) : List (String × String) :=
  if l.isEmpty then []
  else (l.splitOn ',').map fun p =>
    match p.splitOn '=' with
    | [] => ("", "")
    | k :: rest => (String.mk (trimChars k), String.mk (trimChars (rest.head?.getD [])))

/-- The match of /🔧\s*\*\*Executing Tool:\*\*\s*(\w+)\s*\(([^)]*)\)/ at
the text following a 🔧. -/
def parseToolStartAt (l : Chars) : Option (String × Chars) :=
  let l1 := afterWsStar l
  if "**Executing Tool:**".data.isPrefixOf l1 then
    let l2 := afterWsStar (l1.drop 19)
    let name := l2.takeWhile isWordChar
    if 1 ≤ name.length then
      match afterWsStar (l2.drop name.length) with
      | '(' :: rest =>
          let ps := rest.takeWhile (fun c => c ≠ ')')
          if (rest.drop ps.length).head? == some ')' then
            some (String.mk name, ps)
          else none
      | _ => none
    else none
  else none

def parseToolStart : Chars → Option (String × Chars)
  | [] => none
  | c :: t =>
      if c = '🔧' then
        match parseToolStartAt t with
        | some r => some r
        | none => parseToolStart t
      else parseToolStart t

/-- The tool-start branch body (useChat.ts:503-528): on a successful
match, creates a fresh executing ToolCall and upserts it. -/
def toolStartBranch (st : SessionState) (chunk : String) : SessionState :=
  match parseToolStart chunk.data with
  | some (name, ps) =>
      updateToolCallOp { st with nextId := st.nextId + 1 }
        { id := st.nextId, toolName := name, status := ToolStatus.executing,
          params := parseParams ps }
  | none => st

/-- The capture of /✅\s*\*\*Result:\*\*\s*([\s\S]*?)(?=\n|$)/ : text after
the marker up to the next newline (greedy \s* first). -/
def parseResult : Chars → Option Chars
  | [] => none
  | c :: t =>
      if c = '✅' then
        let l1 := afterWsStar t
        if "**Result:**".data.isPrefixOf l1 then
          some ((afterWsStar (l1.drop 11)).takeWhile (fun c => c ≠ '\n'))
        else parseResult t
      else parseResult t

/-- The capture of /❌\s*\*\*Error:\*\*\s*(.*?)(?=\n|$)/. -/
def parseError : Chars → Option Chars
  | [] => none
  | c :: t =>
      if c = '❌' then
        let l1 := afterWsStar t
        if "**Error:**".data.isPrefixOf l1 then
          some ((afterWsStar (l1.drop 10)).takeWhile (fun c => c ≠ '\n'))
        else parseError t
      else parseError t

/-- The tool-result branch body (useChat.ts:531-573): completes the last
active tool call if it is executing, schedules a buffer flush when no
other call remains executing, and appends the chunk to the buffer.
The Bool is the scheduled-flush flag (the setTimeout(flush, 100)). -/
def resultBranch (st : SessionState) (chunk : String) : SessionState × Bool :=
  match parseResult chunk.data with
  | some resultStr =>
      match st.activeToolCalls.getLast? with
      | some last =>
          if last.status = ToolStatus.executing then
            let updated := { last with
              status := ToolStatus.completed
              result := some (String.mk (trimChars resultStr))
              hasEndTime := true }
            let st1 := updateToolCallOp st updated
            let remaining := st.activeToolCalls.filter
              (fun t => t.id ≠ last.id && t.status = ToolStatus.executing)
            (bufferAppendOnly st1 chunk, remaining.length = 0)
          else (bufferAppendOnly st chunk, false)
      | none => (bufferAppendOnly st chunk, false)
  | none => (bufferAppendOnly st chunk, false)

/-- The tool-error branch body (useChat.ts:576-628); the error notification
list is not modelled (no claim concerns it). -/
def errorBranch (st : SessionState) (chunk : String) : SessionState × Bool :=
  match parseError chunk.data with
  | some errorStr =>
      match st.activeToolCalls.getLast? with
      | some last =>
          if last.status = ToolStatus.executing then
            let updated := { last with
              status := ToolStatus.failed
              error := some (String.mk (trimChars errorStr))
              hasEndTime := true }
            let st1 := updateToolCallOp st updated
            let remaining := st.activeToolCalls.filter
              (fun t => t.id ≠ last.id && t.status = ToolStatus.executing)
            (bufferAppendOnly st1 chunk, remaining.length = 0)
          else (bufferAppendOnly st chunk, false)
      | none => (bufferAppendOnly st chunk, false)
  | none => (bufferAppendOnly st chunk, false)

/-- The research-marker branch (useChat.ts:631-652): buffers the chunk;
a research-complete marker schedules a buffer flush. -/
def researchBranch (st : SessionState) (chunk : String) : SessionState × Bool :=
  (bufferAppendOnly st chunk, hasSub chunk "✨ **Research complete**")

/-- The regular-content branch (useChat.ts:654-691). -/
def regularBranch (st : SessionState) (chunk : String) : SessionState × List String :=
  let hasActive := st.activeToolCalls.any (fun t => t.status = ToolStatus.executing)
  if hasActive || st.buffered.isBuffering then
    ({ st with buffered := ⟨st.buffered.chunks ++ [chunk], true, hasActive⟩ }, [])
  else if st.buffered.chunks ≠ [] then
    appendToLastMessage { st with buffered := emptyBuffer }
      (String.join st.buffered.chunks ++ chunk)
  else
    appendToLastMessage st chunk

structure ChunkResult where
  st : SessionState
  delivered : List String
  flushScheduled : Bool
deriving DecidableEq, Repr

/-- processStreamingChunk (useChat.ts:443-713): the branch cascade.  Each
branch except the last returns early in the source. -/
def processStreamingChunk (st : SessionState) (chunk : String) : ChunkResult :=
  if hasToolIndicators chunk then ⟨indicatorBranch st chunk, [], false⟩
  else if toolStartGuard chunk then ⟨toolStartBranch st chunk, [], false⟩
  else if resultGuard chunk then
    let r := resultBranch st chunk
    ⟨r.1, [], r.2⟩
  else if errorGuard chunk then
    let r := errorBranch st chunk
    ⟨r.1, [], r.2⟩
  else if researchGuard chunk then
    let r := researchBranch st chunk
    ⟨r.1, [], r.2⟩
  else
    let r := regularBranch st chunk
    ⟨r.1, r.2, false⟩

/-- Natural completion in handleUserMessage (useChat.ts:915-917):
flushBufferedContent then markStreamingComplete. -/
def finalizeNatural (st : SessionState) : SessionState × List String :=
  let f := flushBufferedContent st
  (markStreamingComplete f.1, f.2)

def cancelNotice : String := "\n\n🛑 Request cancelled by user"

/-- The cancellation path in handleUserMessage (useChat.ts:919-942):
append the cancellation notice, then flushBufferedContent, then
markStreamingComplete. -/
def finalizeCancelled (st : SessionState) : SessionState × List String :=
  let a := appendToLastMessage st cancelNotice
  let f := flushBufferedContent a.1
  (markStreamingComplete f.1, a.2 ++ f.2)

/- ----------------------------------------------------------------------
processStreamingResponse and sanitizeStreamingText
(src/src/utils/api.ts:300-456, first variant).

The TextDecoder is modelled as the identity on character-aligned text:
input chunks are the decoded text fragments.  String indices are
character counts (the only divergence from UTF-16 code-unit counts is
the 50-unit hold-back length and the impossible lone-surrogate marker
prefix, neither of which any theorem depends on at the boundary).
---------------------------------------------------------------------- -/

/-- The recognized tool-call markers (api.ts:345). -/
def markers : List String :=
  ["🔧 **Executing Tool:**", "✅ **Result:**", "❌ **Error:**"]

/-- First index of an occurrence of pat in l (JavaScript indexOf). -/
def firstIndexOfAux (pat l : Chars) (i : Nat) : Option Nat :=
  match l with
  | [] => if pat.isEmpty then some i else none
  | _ :: t => if pat.isPrefixOf l then some i else firstIndexOfAux pat t (i + 1)

/-- The earliest complete marker occurrence: smallest index, first marker
in list order on ties (api.ts:346-355). -/
def findMarker (l : Chars) : Option (Nat × Chars) :=
  (markers.map String.data).foldl
    (fun acc m =>
      match firstIndexOfAux m l 0 with
      | none => acc
      | some i =>
          match acc with
          | none => some (i, m)
          | some (j, _) => if i < j then some (i, m) else acc)
    none

/-- Whether the buffer ends with a non-empty strict prefix of the marker
(api.ts:361-369: i ranges over 1 ≤ i < marker.length). -/
def markerSuspectTail (m l : Chars) : Bool :=
  (List.range m.length).any fun i =>
    decide (1 ≤ i) && (m.take i).isSuffixOf l

def hasPartMarker (l : Chars) : Bool :=
  (markers.map String.data).any fun m => markerSuspectTail m l

/-- The marker-aware buffer scan of processStreamingResponse
(api.ts:343-414, while-loop body with done = false): returns the
processed text and the withheld remainder.  Whitespace-only pieces are
dropped by the trim guards.  Fuel bounds the loop; each marker-line
iteration strictly shrinks the buffer, so length + 1 fuel always
suffices. -/
def scanBufferFuel : Nat → Chars → Chars × Chars
  | 0, remaining => ([], remaining)
  | fuel + 1, remaining =>
      match findMarker remaining with
      | none =>
          if hasPartMarker remaining then
            let k := min 50 remaining.length
            let safe := remaining.take (remaining.length - k)
            ((if allWS safe then [] else safe), remaining.drop (remaining.length - k))
          else (remaining, [])
      | some (idx, _) =>
          let textBefore := remaining.take idx
          let pre := if allWS textBefore then [] else textBefore
          let afterMarker := remaining.drop idx
          match firstIndexOfAux ['\n'] afterMarker 0 with
          | none => (pre, afterMarker)
          | some lineEnd =>
              let markerLine := afterMarker.take (lineEnd + 1)
              let rest := afterMarker.drop (lineEnd + 1)
              let r := scanBufferFuel fuel rest
              (pre ++ markerLine ++ r.1, r.2)

def scanBuffer (l : Chars) : Chars × Chars := scanBufferFuel (l.length + 1) l

/-- Removes every left-to-right occurrence of "undefined"
(replace(/undefined/g, '')).  Fuel-driven structural recursion: every
step consumes at least one character, so length fuel suffices. -/
def stripUndefinedFuel : Nat → Chars → Chars
  | 0, l => l
  | _ + 1, [] => []
  | fuel + 1, c :: t =>
      if "undefined".data.isPrefixOf (c :: t) then stripUndefinedFuel fuel ((c :: t).drop 9)
      else c :: stripUndefinedFuel fuel t

def stripUndefined (l : Chars) : Chars := stripUndefinedFuel l.length l

/-- The control characters removed by sanitizeStreamingText
([\x00-\x08\x0B\x0C\x0E-\x1F]). -/
def isCtrlRemoved (c : Char) : Bool :=
  c.toNat ≤ 0x08 || c.toNat = 0x0B || c.toNat = 0x0C ||
  (0x0E ≤ c.toNat && c.toNat ≤ 0x1F)

/-- The characters kept by the final filter: the complement of the class
x20-x7E, x09, x0A, x0D, u00A0-uFFFF is removed.  The JavaScript ranges
are over UTF-16 code units, so astral characters (whose surrogates lie
in 00A0-FFFF) are kept; hence every character at or above 00A0 is kept. -/
def isPrintableKept (c : Char) : Bool :=
  (0x20 ≤ c.toNat && c.toNat ≤ 0x7E) || c.toNat = 0x09 || c.toNat = 0x0A ||
  c.toNat = 0x0D || 0xA0 ≤ c.toNat

/-- sanitizeStreamingText (api.ts:442-456). -/
def sanitizeStreamingText (l : Chars) : Chars :=
  let s1 := stripUndefined l
  let s2 := s1.filter (fun c => !(isCtrlRemoved c))
  let s3 := s2.filter (fun c => c.toNat ≠ 0xFFFD)
  let s4 := if allWS s3 then [] else s3
  s4.filter isPrintableKept

/-- The onChunk emission gate (api.ts:420-426): a processed piece is sent
only when its trim and its sanitized form are non-empty. -/
def emitOf (processed : Chars) : List String :=
  if allWS processed then []
  else
    let clean := sanitizeStreamingText processed
    if clean.isEmpty then [] else [String.mk clean]

/-- One reader iteration on a newly arrived chunk: append to the buffer,
scan, emit.  Returns the new buffer and the emitted content. -/
def stepChunk (buffer : Chars) (chunk : String) : Chars × List String :=
  let r := scanBuffer (buffer ++ chunk.data)
  (r.2, emitOf r.1)

/-- The full reader loop of processStreamingResponse including the final
buffer flush at stream end (api.ts:320-329). -/
def runStreamAux : Chars → List String → List String
  | buffer, [] => emitOf buffer
  | buffer, c :: cs =>
      let r := stepChunk buffer c
      r.2 ++ runStreamAux r.1 cs

def runStream (chunks : List String) : List String := runStreamAux [] chunks

/-- The raw processed pieces of the same loop, before sanitization: the
per-iteration processedText values whose trim is non-empty, and the final
buffer when its trim is non-empty. -/
def runPiecesAux : Chars → List String → List Chars
  | buffer, [] => if allWS buffer then [] else [buffer]
  | buffer, c :: cs =>
      let r := scanBuffer (buffer ++ c.data)
      (if allWS r.1 then [] else [r.1]) ++ runPiecesAux r.2 cs

def runPieces (chunks : List String) : List Chars := runPiecesAux [] chunks

/- ----------------------------------------------------------------------
RobustStreamingClient (src/src/utils/api.ts:492-904, second variant):
the tool-call lifecycle of processRobustStream / processTextWithAccuracy.
Only the onToolCall event stream is modelled (onContent and onError emit
no ToolCall values).  Each regex .test is an existence scanner; the
matching positions follow the greedy semantics of the JavaScript
patterns on newline-free lines.
---------------------------------------------------------------------- -/

/-- Position test for pattern 1 of isToolCallStart, after the 🔧:
(?:Tool|Calling|Executing):\s*\w+ case-insensitively. -/
def p1At (l : Chars) : Bool :=
  (["tool:", "calling:", "executing:"] : List String).any fun kw =>
    match afterCiLit kw l with
    | none => false
    | some r => wsThenWordAfter r

/-- Position test for pattern 2, after the 🔧:
(?:Using|Running)\s+tool:\s*\w+ case-insensitively. -/
def p2At (l : Chars) : Bool :=
  match (afterCiLit "using" l).orElse (fun _ => afterCiLit "running" l) with
  | none => false
  | some r1 =>
      match afterWsPlus r1 with
      | none => false
      | some r2 =>
          match afterCiLit "tool:" r2 with
          | none => false
          | some r3 => wsThenWordAfter r3

/-- Position test for pattern 3, after the 🔧: \w+\s+tool
case-insensitively.  The word characters must all precede the mandatory
whitespace, so only the maximal word prefix can be consumed. -/
def p3At (l : Chars) : Bool :=
  let m := (l.takeWhile isWordChar).length
  decide (1 ≤ m) &&
    (match afterWsPlus (l.drop m) with
     | none => false
     | some r => ciPrefix "tool" r)

/-- Position test for pattern 4: Tool\s+call:\s*\w+ case-insensitively
(no 🔧 required). -/
def p4At (l : Chars) : Bool :=
  match afterCiLit "tool" l with
  | none => false
  | some r1 =>
      match afterWsPlus r1 with
      | none => false
      | some r2 =>
          match afterCiLit "call:" r2 with
          | none => false
          | some r3 => wsThenWordAfter r3

/-- isToolCallStart (api.ts:724-733). -/
def isToolCallStart (l : Chars) : Bool :=
  (match afterFirst '🔧' l with
   | some t => scanAny p1At t || scanAny p2At t || scanAny p3At t
   | none => false) ||
  scanAny p4At l

/-- True when a character is the success or failure icon. -/
def isEndIcon (c : Char) : Bool := c = '✅' || c = '❌'

/-- The rest of the text after the first ✅ or ❌. -/
def afterFirstIcon : Chars → Option Chars
  | [] => none
  | c :: t => if isEndIcon c then some t else afterFirstIcon t

/-- Position test for Tool\s+(?:completed|finished|done|failed)
case-insensitively. -/
def e3At (l : Chars) : Bool :=
  match afterCiLit "tool" l with
  | none => false
  | some r1 =>
      match afterWsPlus r1 with
      | none => false
      | some r2 =>
          (["completed", "finished", "done", "failed"] : List String).any
            fun kw => ciPrefix kw r2

/-- isToolCallEnd (api.ts:738-746): an icon followed by a completion or
failure keyword, or a Tool completed phrase. -/
def isToolCallEnd (l : Chars) : Bool :=
  (match afterFirstIcon l with
   | some t =>
       anyKwCi ["completed", "finished", "done", "failed", "error"] t ||
       anyKwCi ["success", "complete"] t
   | none => false) ||
  scanAny e3At l

/-- isErrorMessage (api.ts:764-766). -/
def isErrorMessage (l : Chars) : Bool :=
  match afterFirst '❌' l with
  | some t => anyKwCi ["error:", "failed:", "exception:"] t
  | none => false

/-- isToolRelated (api.ts:751-759). -/
def isToolRelated (l : Chars) : Bool :=
  l.any (fun c => c = '🔧' || isEndIcon c) ||
  ((["tool:", "calling:", "executing:", "using:", "running:"] : List String).any
    fun kw => scanAny (fun s => ciPrefix kw s && wsThenWordAfter (s.drop kw.length)) l) ||
  scanAny
    (fun s =>
      (["completed", "finished", "done", "failed", "error"] : List String).any
        fun kw => ciPrefix kw s && anyKwCi ["tool"] (s.drop kw.length))
    l

/-- The latest position (greedy leading .*) at which a capture function
succeeds. -/
def scanLastName (p : Chars → Option Chars) : Chars → Option Chars
  | [] => p []
  | l@(_ :: t) =>
      match scanLastName p t with
      | some r => some r
      | none => p l

/-- The earliest position at which a capture function succeeds. -/
def scanFirstName (p : Chars → Option Chars) : Chars → Option Chars
  | [] => p []
  | l@(_ :: t) =>
      match p l with
      | some r => some r
      | none => scanFirstName p t

/-- Name capture of extractToolCall pattern 1 at a position (after the
🔧): the full word following the keyword and optional whitespace. -/
def p1Name (l : Chars) : Option Chars :=
  (["tool:", "calling:", "executing:"] : List String).findSome? fun kw =>
    match afterCiLit kw l with
    | none => none
    | some r =>
        let w := (afterWsStar r).takeWhile isWordChar
        if 1 ≤ w.length then some w else none

/-- Name capture of extractToolCall pattern 2 at a position. -/
def p2Name (l : Chars) : Option Chars :=
  match (afterCiLit "using" l).orElse (fun _ => afterCiLit "running" l) with
  | none => none
  | some r1 =>
      match afterWsPlus r1 with
      | none => none
      | some r2 =>
          match afterCiLit "tool:" r2 with
          | none => none
          | some r3 =>
              let w := (afterWsStar r3).takeWhile isWordChar
              if 1 ≤ w.length then some w else none

/-- Name capture of extractToolCall pattern 3 at a position: with the
greedy leading .* the group \w+ backtracks to a single character, the
last word character before the whitespace and "tool". -/
def p3Name (l : Chars) : Option Chars :=
  match l with
  | c :: rest =>
      if isWordChar c then
        match afterWsPlus rest with
        | none => none
        | some r => if ciPrefix "tool" r then some [c] else none
      else none
  | [] => none

/-- Name capture of extractToolCall pattern 4 at a position. -/
def p4Name (l : Chars) : Option Chars :=
  match afterCiLit "tool" l with
  | none => none
  | some r1 =>
      match afterWsPlus r1 with
      | none => none
      | some r2 =>
          match afterCiLit "call:" r2 with
          | none => none
          | some r3 =>
              let w := (afterWsStar r3).takeWhile isWordChar
              if 1 ≤ w.length then some w else none

/-- extractToolCall (api.ts:771-792): the four patterns in order; the
first three anchor at the first 🔧 with a greedy tail, the fourth is a
plain leftmost match. -/
def extractToolCall (l : Chars) : Option Chars :=
  let e := afterFirst '🔧' l
  match (match e with | some t => scanLastName p1Name t | none => none) with
  | some n => some n
  | none =>
  match (match e with | some t => scanLastName p2Name t | none => none) with
  | some n => some n
  | none =>
  match (match e with | some t => scanLastName p3Name t | none => none) with
  | some n => some n
  | none => scanFirstName p4Name l

/-- Fresh tool-call ids are drawn from a counter (the source uses
Date.now plus a random suffix; only freshness matters). -/
structure RState where
  current : Option ToolCall
  nextId : Nat
deriving Repr

/-- completeToolCall (api.ts:797-808). -/
def completeToolCall (tc : ToolCall) (l : Chars) : ToolCall :=
  let isSuccess := l.any (fun c => c = '✅') ||
    anyKwCi ["completed", "finished", "done", "success"] l ||
    !(anyKwCi ["failed", "error"] l)
  { tc with
    status := if isSuccess then ToolStatus.completed else ToolStatus.failed
    hasEndTime := true
    result := some (if isSuccess then "Success" else "Failed") }

/-- processTextWithAccuracy (api.ts:673-719), restricted to its ToolCall
events: a start match creates a fresh executing call (and emits it via
onToolCall); an end match on an open call emits the completed call and
clears it; the error and plain-content branches emit no ToolCall.
When isToolCallStart holds but extraction fails, the source falls
through to the later checks. -/
def procLine (st : RState) (line : Chars) : RState × List ToolCall :=
  let t := trimChars line
  if t.isEmpty then (st, [])
  else
    match if isToolCallStart t then extractToolCall t else none with
    | some name =>
        let tc : ToolCall :=
          { id := st.nextId, toolName := String.mk name, status := ToolStatus.executing }
        (⟨some tc, st.nextId + 1⟩, [tc])
    | none =>
        match st.current with
        | some cur =>
            if isToolCallEnd t then (⟨none, st.nextId⟩, [completeToolCall cur t])
            else (st, [])
        | none => (st, [])

def procLines : RState → List Chars → RState × List ToolCall
  | st, [] => (st, [])
  | st, l :: ls =>
      let r1 := procLine st l
      let r2 := procLines r1.1 ls
      (r2.1, r1.2 ++ r2.2)

/-- One reader iteration of processRobustStream (api.ts:641-660): append
the decoded chunk to the text buffer, process the complete lines, keep
the trailing incomplete line. -/
def procChunk (st : RState) (buf chunk : Chars) : RState × Chars × List ToolCall :=
  let tb := buf ++ chunk
  let lines := tb.splitOn '\n'
  if 1 < lines.length then
    let r := procLines st lines.dropLast
    (r.1, (lines.getLast?.getD []), r.2)
  else (st, tb, [])

def runRobustGo : RState → Chars → List String → List ToolCall
  | st, buf, [] =>
      if (trimChars buf).isEmpty then [] else (procLine st buf).2
  | st, buf, c :: cs =>
      let r := procChunk st buf c.data
      r.2.2 ++ runRobustGo r.1 r.2.1 cs

/-- The full onToolCall event stream that processRobustStream produces on
a list of decoded chunks, including the final-buffer processing at
stream end (api.ts:580-600). -/
def runRobust (chunks : List String) : List ToolCall :=
  runRobustGo ⟨none, 0⟩ [] chunks

/-- The per-id status history of the emitted tool-call events. -/
def statusesFor (id : Nat) (evs : List ToolCall) : List ToolStatus :=
  (evs.filter (fun e => e.id = id)).map (fun e => e.status)

/-- The lifecycle sequences permitted by the specification: at most one
executing event, optionally followed by exactly one terminal event. -/
def OkSeq (s : List ToolStatus) : Prop :=
  s = [] ∨ s = [ToolStatus.executing] ∨
  s = [ToolStatus.executing, ToolStatus.completed] ∨
  s = [ToolStatus.executing, ToolStatus.failed]

/- ----------------------------------------------------------------------
General lemmas about the embedded operations.
---------------------------------------------------------------------- -/

theorem hasSub_mono (s p q : String) (hq : q.data <:+: p.data)
    (h : hasSub s p = true) : hasSub s q = true := by
  unfold hasSub at h ⊢
  rw [decide_eq_true_eq] at h ⊢
  exact hq.trans h

/-- Any chunk satisfying the tool-start branch guard already satisfies the
aggressive tool-indicator check, because both disjuncts of the guard
require the 🔧 character. -/
theorem toolStartGuard_ind (c : String) (h : toolStartGuard c = true) :
    hasToolIndicators c = true := by
  have hb : hasSub c "🔧" = true := by
    unfold toolStartGuard at h
    rcases (Bool.or_eq_true _ _).mp h with h1 | h2
    · exact hasSub_mono c _ "🔧" (by decide) h1
    · exact ((Bool.and_eq_true _ _).mp h2).1
  unfold hasToolIndicators
  simp [hb]

/-- Any chunk satisfying the tool-result branch guard satisfies the
tool-indicator check (both disjuncts require the ✅ character). -/
theorem resultGuard_ind (c : String) (h : resultGuard c = true) :
    hasToolIndicators c = true := by
  have hb : hasSub c "✅" = true := by
    unfold resultGuard at h
    rcases (Bool.or_eq_true _ _).mp h with h1 | h2
    · exact hasSub_mono c _ "✅" (by decide) h1
    · exact ((Bool.and_eq_true _ _).mp h2).1
  unfold hasToolIndicators
  simp [hb]

/-- Any chunk satisfying the tool-error branch guard satisfies the
tool-indicator check (both disjuncts require the ❌ character). -/
theorem errorGuard_ind (c : String) (h : errorGuard c = true) :
    hasToolIndicators c = true := by
  have hb : hasSub c "❌" = true := by
    unfold errorGuard at h
    rcases (Bool.or_eq_true _ _).mp h with h1 | h2
    · exact hasSub_mono c _ "❌" (by decide) h1
    · exact ((Bool.and_eq_true _ _).mp h2).1
  unfold hasToolIndicators
  simp [hb]

/-- processStreamingChunk never changes the active tool-call list: the
branches that would (tool start, result, error) are shadowed by the
tool-indicator early return, and the remaining branches only touch the
buffer and the message. -/
theorem processChunk_preserves_active (st : SessionState) (c : String) :
    (processStreamingChunk st c).st.activeToolCalls = st.activeToolCalls := by
  unfold processStreamingChunk
  cases hI : hasToolIndicators c with
  | true =>
      simp only [hI, if_true]
      unfold indicatorBranch
      split <;> rfl
  | false =>
      cases hTS : toolStartGuard c with
      | true => exact absurd (toolStartGuard_ind c hTS) (by simp [hI])
      | false =>
        cases hR : resultGuard c with
        | true => exact absurd (resultGuard_ind c hR) (by simp [hI])
        | false =>
          cases hE : errorGuard c with
          | true => exact absurd (errorGuard_ind c hE) (by simp [hI])
          | false =>
            cases hRe : researchGuard c with
            | true =>
                simp only [hI, hTS, hR, hE, hRe, Bool.false_eq_true, if_false, if_true]
                rfl
            | false =>
                simp only [hI, hTS, hR, hE, hRe, Bool.false_eq_true, if_false]
                unfold regularBranch appendToLastMessage
                dsimp only
                split
                · rfl
                · split
                  · split <;> rfl
                  · split <;> rfl

theorem flush_preserves_active (st : SessionState) :
    (flushBufferedContent st).1.activeToolCalls = st.activeToolCalls := by
  unfold flushBufferedContent
  split <;> rfl

theorem append_preserves_active (st : SessionState) (c : String) :
    (appendToLastMessage st c).1.activeToolCalls = st.activeToolCalls := by
  unfold appendToLastMessage
  split <;> rfl

theorem forceComplete_status_ne (tc : ToolCall) :
    (forceComplete tc).status ≠ ToolStatus.executing := by
  unfold forceComplete
  split
  · simp
  · simp_all

/- ----------------------------------------------------------------------
Claim theorems.
---------------------------------------------------------------------- -/

/-- C9: any chunk that satisfies the tool-start parsing branch guard (in
particular any chunk containing 🔧) already trips the aggressive
tool-indicator early return, so the parsing branch is unreachable and no
chunk ever creates an executing ToolCall: processStreamingChunk leaves
the active tool-call list of every state unchanged for every possible
chunk. -/
theorem c9_toolstart_branch_dead (c : String) (h : toolStartGuard c = true) :
    hasToolIndicators c = true ∧
    ∀ (st : SessionState) (chunk : String),
      (processStreamingChunk st chunk).st.activeToolCalls = st.activeToolCalls :=
  ⟨toolStartGuard_ind c h, fun st chunk => processChunk_preserves_active st chunk⟩

/-- Witness for C9 at the concrete chunk from the spec scenario. -/
theorem c9_toolstart_branch_dead_witness :
    toolStartGuard "🔧 Executing Tool: weather()" = true ∧
    hasToolIndicators "🔧 Executing Tool: weather()" = true :=
  ⟨by decide, (c9_toolstart_branch_dead "🔧 Executing Tool: weather()" (by decide)).1⟩

/-- C1 as stated is false: in a session where a ToolCall is executing and
content has been buffered, resolving the last executing ToolCall (the
blocked-to-unblocked transition) delivers nothing — the buffered fragment
stays pending and the displayed message stays empty. -/
theorem c1_counterexample :
    (let tcE : ToolCall := { id := 1, toolName := "web_search", status := ToolStatus.executing }
     let tcC : ToolCall := { tcE with status := ToolStatus.completed }
     let s1 := updateToolCallOp initialState tcE
     let r2 := processStreamingChunk s1 "Hello"
     let s3 := updateToolCallOp r2.st tcC
     (s1.activeToolCalls.any (fun t => t.status = ToolStatus.executing) = true) ∧
     r2.delivered = [] ∧ r2.st.buffered.chunks = ["Hello"] ∧
     (s3.activeToolCalls.any (fun t => t.status = ToolStatus.executing) = false) ∧
     s3.buffered.chunks = ["Hello"] ∧ s3.displayed = "") := by
  decide

/-- C1 amended: while any ToolCall is executing, processing a chunk
delivers no content (it is buffered); but the unblocking transition
itself delivers nothing — the buffered fragments are delivered, joined
in original arrival order, only when flushBufferedContent runs (on a
scheduled flush or at session finalization), which also empties the
pending list. -/
theorem c1_amended (st st2 : SessionState) (chunk : String)
    (h : st.activeToolCalls.any (fun t => t.status = ToolStatus.executing) = true) :
    (processStreamingChunk st chunk).delivered = [] ∧
    ((flushBufferedContent st2).2 =
      if st2.buffered.chunks = [] then [] else [String.join st2.buffered.chunks]) ∧
    (flushBufferedContent st2).1.buffered.chunks = [] := by
  refine ⟨?_, ?_, ?_⟩
  · unfold processStreamingChunk
    split
    · rfl
    · split
      · rfl
      · split
        · rfl
        · split
          · rfl
          · split
            · rfl
            · unfold regularBranch
              simp [h]
  · unfold flushBufferedContent
    split <;> simp_all
  · unfold flushBufferedContent
    split <;> rfl

/-- Witness for C1 amended at a concrete blocked state. -/
theorem c1_amended_witness :
    (processStreamingChunk
      { displayed := "", activeToolCalls := [⟨7, "web_search", ToolStatus.executing, [], none, none, false⟩],
        msgToolCalls := [], buffered := ⟨["early"], true, true⟩, nextId := 8 }
      "more words").delivered = [] ∧
    ((flushBufferedContent
      { displayed := "", activeToolCalls := [], msgToolCalls := [],
        buffered := ⟨["a", "b"], true, false⟩, nextId := 0 }).2 =
      if (["a", "b"] : List String) = [] then [] else [String.join ["a", "b"]]) ∧
    (flushBufferedContent
      { displayed := "", activeToolCalls := [], msgToolCalls := [],
        buffered := ⟨["a", "b"], true, false⟩, nextId := 0 }).1.buffered.chunks = [] :=
  c1_amended _ _ "more words" (by decide)

/-- C6 as stated is false: after a chunk has been buffered, the
cancellation path of handleUserMessage flushes the buffered content to
the displayed message (and the buffer-blocked guard even suppresses the
cancellation notice), so the consumer receives the buffered content
after cancellation. -/
theorem c6_counterexample :
    (let r1 := processStreamingChunk initialState "🔧 working"
     let fin := finalizeCancelled r1.st
     r1.st.buffered.chunks = ["🔧 working"] ∧ r1.delivered = [] ∧
     fin.2 = ["🔧 working"] ∧ fin.1.displayed = "🔧 working") := by
  decide

/-- C6 amended: cancellation runs the same finalization as natural
completion — it appends the cancellation notice (unless the
buffering-with-active-tool-calls guard suppresses it) and then flushes
all buffered content into the message; buffered content is therefore
flushed on cancellation exactly as on natural completion. -/
theorem c6_amended (st : SessionState) :
    (finalizeCancelled st).2 =
      (if st.buffered.isBuffering && st.buffered.hasActiveToolCalls then ([] : List String)
       else [cancelNotice]) ++
      (if st.buffered.chunks = [] then [] else [String.join st.buffered.chunks]) ∧
    (finalizeCancelled st).1.buffered = emptyBuffer := by
  constructor
  · unfold finalizeCancelled appendToLastMessage flushBufferedContent
    dsimp only
    split <;> split <;> simp_all
  · rfl

/-- C7 as stated is false: a tool-indicator chunk sets the
actively-blocked flag with no executing ToolCall in the session, and a
subsequent plain chunk resets the flag to false while the pending list
is non-empty — both directions of the invariant fail. -/
theorem c7_counterexample :
    (let r1 := processStreamingChunk initialState "🔧 step"
     let r2 := processStreamingChunk r1.st "more text"
     (r1.st.buffered.hasActiveToolCalls = true ∧
      r1.st.activeToolCalls.any (fun t => t.status = ToolStatus.executing) = false) ∧
     (r2.st.buffered.hasActiveToolCalls = false ∧ r2.st.buffered.chunks ≠ [])) := by
  decide

/-- C7 amended: the flag-status agreement is restored exactly by the
operations that recompute it — after every updateToolCall the flag
equals whether some active ToolCall is executing, and finalization
resets the flag and empties the pending list; it does not hold after the
indicator branch, and a false flag does not imply an empty pending
list. -/
theorem c7_amended (st : SessionState) (tc : ToolCall) :
    ((updateToolCallOp st tc).buffered.hasActiveToolCalls =
      (updateToolCallOp st tc).activeToolCalls.any
        (fun t => t.status = ToolStatus.executing)) ∧
    (markStreamingComplete st).buffered.hasActiveToolCalls = false ∧
    (markStreamingComplete st).buffered.chunks = [] ∧
    (markStreamingComplete st).activeToolCalls = [] :=
  ⟨rfl, rfl, rfl, rfl⟩

/-- C2: evaluation of the code at the spec scenario.  The code delivers
"Hello " immediately on the first chunk (a content callback before any
result line), the tool-start and result chunks are swallowed by the
indicator branch without ever creating or completing a ToolCall, and the
stream-end flush delivers the concatenation of all four chunks — the
marker lines included — so the final message is not "Hello world". -/
theorem c2_scenario_divergence :
    (let r1 := processStreamingChunk initialState "Hello "
     let r2 := processStreamingChunk r1.st "🔧 Executing Tool: web_search(query=x)\n"
     let r3 := processStreamingChunk r2.st "✅ Result: done\n"
     let r4 := processStreamingChunk r3.st "world"
     let fin := finalizeNatural r4.st
     r1.delivered = ["Hello "] ∧ r1.st.displayed = "Hello " ∧
     r2.delivered = [] ∧ r2.st.displayed = "" ∧
     r2.st.activeToolCalls = [] ∧ r3.st.activeToolCalls = [] ∧
     r3.delivered = [] ∧ r3.flushScheduled = false ∧
     fin.2 = ["Hello 🔧 Executing Tool: web_search(query=x)\n✅ Result: done\nworld"] ∧
     fin.1.displayed = "Hello 🔧 Executing Tool: web_search(query=x)\n✅ Result: done\nworld" ∧
     fin.1.displayed ≠ "Hello world") := by
  decide

/-- C3: evaluation of the code at a failing input.  The same logical text
"a" followed by a newline, delivered as one chunk versus two chunks,
produces different onChunk sequences: the trailing newline chunk is
dropped by the whitespace-trim emission gate. -/
theorem c3_chunking_divergence :
    String.join ["a\n"] = String.join ["a", "\n"] ∧
    runStream ["a\n"] = ["a\n"] ∧
    runStream ["a", "\n"] = ["a"] ∧
    runStream ["a\n"] ≠ runStream ["a", "\n"] := by
  decide

/-- C4 as stated is false: the recognized markers all contain the bold
asterisks, so the spec scenario tail "🔧 Exec" is not a prefix of any
recognized marker — the partial-marker check does not fire, the text is
emitted as content in the first chunk processing, and no marker ever
completes across the two chunks. -/
theorem c4_counterexample :
    hasPartMarker ("Hi 🔧 Exec".data) = false ∧
    (stepChunk [] "Hi 🔧 Exec").2 = ["Hi 🔧 Exec"] ∧
    runStream ["Hi 🔧 Exec", "uting Tool: weather()\n"] =
      ["Hi 🔧 Exec", "uting Tool: weather()\n"] := by
  decide

/-- C4 amended: for the markers the code actually recognizes (the
bold-asterisk forms), whenever the buffer contains no complete marker
and its tail is a non-empty strict prefix of a recognized marker, the
scan withholds the final min(50, length) characters — in particular the
entire suspect tail remains in the withheld buffer and only the text
before the hold-back point can be emitted. -/
theorem c4_amended (l : Chars)
    (hm : findMarker l = none) (hp : hasPartMarker l = true) :
    scanBuffer l =
      ((if allWS (l.take (l.length - min 50 l.length)) then []
        else l.take (l.length - min 50 l.length)),
       l.drop (l.length - min 50 l.length)) ∧
    ∀ m ∈ markers, ∀ i, 1 ≤ i → i < m.data.length →
      m.data.take i <:+ l →
      m.data.take i <:+ l.drop (l.length - min 50 l.length) := by
  constructor
  · unfold scanBuffer scanBufferFuel
    rw [hm]
    simp [hp]
  · intro m hmem i h1 h2 hsuf
    have hpl : (m.data.take i).length = i := by
      rw [List.length_take]
      omega
    have hil : i ≤ l.length := by
      have hle := hsuf.length_le
      omega
    have him : m.data.length ≤ 21 := by
      simp only [markers, List.mem_cons, List.not_mem_nil, or_false] at hmem
      rcases hmem with rfl | rfl | rfl <;> decide
    have hik : i ≤ min 50 l.length := by omega
    have heq : m.data.take i =
        (l.drop (l.length - min 50 l.length)).drop (min 50 l.length - i) := by
      have hdrop := List.suffix_iff_eq_drop.mp hsuf
      rw [hpl] at hdrop
      rw [List.drop_drop, hdrop]
      congr 1
      omega
    rw [heq]
    exact List.drop_suffix _ _

/-- Witness for C4 amended at a buffer ending in a genuine strict marker
prefix: the whole 12-character buffer is withheld and nothing emitted. -/
theorem c4_amended_witness :
    scanBuffer ("abc 🔧 **Exec".data) = ([], "abc 🔧 **Exec".data) := by
  have h := (c4_amended ("abc 🔧 **Exec".data) (by decide) (by decide)).1
  rw [h]
  decide

/-- C5: session finalization (the markStreamingComplete step of both the
natural-completion and the cancellation path) forces every ToolCall that
is still executing to completed, stamping an end time and substituting
the synthetic "Execution completed" result when none is present, and
afterwards no ToolCall in the session is executing. -/
theorem c5_finalization_completes (st : SessionState) (tc : ToolCall)
    (hmem : tc ∈ st.activeToolCalls) (hex : tc.status = ToolStatus.executing) :
    ((finalizeNatural st).1.msgToolCalls.all
        (fun t => t.status ≠ ToolStatus.executing) = true) ∧
    ((finalizeCancelled st).1.msgToolCalls.all
        (fun t => t.status ≠ ToolStatus.executing) = true) ∧
    (finalizeNatural st).1.activeToolCalls = [] ∧
    (finalizeCancelled st).1.activeToolCalls = [] ∧
    (forceComplete tc).status = ToolStatus.completed ∧
    (forceComplete tc).hasEndTime = true ∧
    (tc.result = none → (forceComplete tc).result = some "Execution completed") ∧
    forceComplete tc ∈ (finalizeNatural st).1.msgToolCalls := by
  have hnat : (finalizeNatural st).1.msgToolCalls =
      st.activeToolCalls.map forceComplete := by
    show (markStreamingComplete (flushBufferedContent st).1).msgToolCalls = _
    rw [show (markStreamingComplete (flushBufferedContent st).1).msgToolCalls =
        (flushBufferedContent st).1.activeToolCalls.map forceComplete from rfl,
      flush_preserves_active]
  have hcan : (finalizeCancelled st).1.msgToolCalls =
      st.activeToolCalls.map forceComplete := by
    show (markStreamingComplete
        (flushBufferedContent (appendToLastMessage st cancelNotice).1).1).msgToolCalls = _
    rw [show (markStreamingComplete
          (flushBufferedContent (appendToLastMessage st cancelNotice).1).1).msgToolCalls =
        (flushBufferedContent (appendToLastMessage st cancelNotice).1).1.activeToolCalls.map
          forceComplete from rfl,
      flush_preserves_active, append_preserves_active]
  have hall : (st.activeToolCalls.map forceComplete).all
      (fun t => t.status ≠ ToolStatus.executing) = true := by
    rw [List.all_eq_true]
    intro t ht
    rcases List.mem_map.mp ht with ⟨u, _, rfl⟩
    simpa using forceComplete_status_ne u
  refine ⟨by rw [hnat]; exact hall, by rw [hcan]; exact hall, rfl, rfl, ?_, ?_, ?_, ?_⟩
  · unfold forceComplete
    simp [hex]
  · unfold forceComplete
    simp [hex]
  · intro hres
    unfold forceComplete
    simp [hex, hres]
  · rw [hnat]
    exact List.mem_map_of_mem forceComplete hmem

/-- Witness for C5 at a session with one executing ToolCall. -/
theorem c5_finalization_completes_witness :
    (let st : SessionState :=
      { displayed := "x", activeToolCalls := [⟨3, "weather", ToolStatus.executing, [], none, none, false⟩],
        msgToolCalls := [], buffered := ⟨["p"], true, true⟩, nextId := 4 }
     ((finalizeNatural st).1.msgToolCalls.all
        (fun t => t.status ≠ ToolStatus.executing) = true) ∧
     (forceComplete ⟨3, "weather", ToolStatus.executing, [], none, none, false⟩).result =
       some "Execution completed") := by
  refine ⟨(c5_finalization_completes _
      ⟨3, "weather", ToolStatus.executing, [], none, none, false⟩
      (by decide) rfl).1, ?_⟩
  exact (c5_finalization_completes
      { displayed := "x", activeToolCalls := [⟨3, "weather", ToolStatus.executing, [], none, none, false⟩],
        msgToolCalls := [], buffered := ⟨["p"], true, true⟩, nextId := 4 }
      ⟨3, "weather", ToolStatus.executing, [], none, none, false⟩
      (by decide) rfl).2.2.2.2.2.2.1 rfl

theorem mk_eq_empty_iff (l : Chars) : String.mk l = "" ↔ l = [] := by
  constructor
  · intro h
    have hd := congrArg String.data h
    simpa using hd
  · rintro rfl
    rfl

/-- Every onChunk emission of the reader loop is the sanitized image of
the corresponding raw processed piece, with empty results dropped. -/
theorem runStreamAux_eq (cs : List String) (buffer : Chars) :
    runStreamAux buffer cs =
      ((runPiecesAux buffer cs).map (fun p => String.mk (sanitizeStreamingText p))).filter
        (fun s => s ≠ "") := by
  induction cs generalizing buffer with
  | nil =>
      show emitOf buffer = _
      unfold runPiecesAux emitOf
      by_cases hw : allWS buffer = true
      · simp [hw]
      · simp only [hw, Bool.false_eq_true, if_false]
        by_cases hc : (sanitizeStreamingText buffer).isEmpty = true
        · rw [List.isEmpty_iff] at hc
          simp [hc, List.isEmpty_iff, mk_eq_empty_iff]
        · simp_all [List.isEmpty_iff, mk_eq_empty_iff]
  | cons c cs ih =>
      unfold runStreamAux runPiecesAux stepChunk
      dsimp only
      rw [List.map_append, List.filter_append, ih]
      congr 1
      unfold emitOf
      by_cases hw : allWS (scanBuffer (buffer ++ c.data)).1 = true
      · simp [hw]
      · simp only [hw, Bool.false_eq_true, if_false]
        by_cases hc : (sanitizeStreamingText (scanBuffer (buffer ++ c.data)).1).isEmpty = true
        · rw [List.isEmpty_iff] at hc
          simp [hc, mk_eq_empty_iff]
        · simp_all [List.isEmpty_iff, mk_eq_empty_iff]

/-- C10: every string delivered by the reader's onChunk callback is the
sanitizeStreamingText image of the raw processed piece (nonempty ones
only), and sanitization deletes literal "undefined" text and U+FFFD
replacement characters, so a stream whose plain text contains the word
"undefined" is delivered altered. -/
theorem c10_sanitize_pipeline (chunks : List String) :
    runStream chunks =
      ((runPieces chunks).map (fun p => String.mk (sanitizeStreamingText p))).filter
        (fun s => s ≠ "") ∧
    runStream ["I am undefined."] = ["I am ."] ∧
    String.mk (sanitizeStreamingText ("a�b".data)) = "ab" ∧
    ("I am ." : String) ≠ "I am undefined." :=
  ⟨runStreamAux_eq chunks [], by decide, by decide, by decide⟩

/- ----------------------------------------------------------------------
C8: the tool-call status lifecycle of the robust streaming client.
---------------------------------------------------------------------- -/

theorem statusesFor_append (id : Nat) (a b : List ToolCall) :
    statusesFor id (a ++ b) = statusesFor id a ++ statusesFor id b := by
  simp [statusesFor]

theorem statusesFor_fresh (id : Nat) (evs : List ToolCall)
    (h : ∀ e ∈ evs, e.id < id) : statusesFor id evs = [] := by
  unfold statusesFor
  have hf : evs.filter (fun e => decide (e.id = id)) = [] := by
    rw [List.filter_eq_nil_iff]
    intro e he
    simp only [decide_eq_true_eq]
    exact Nat.ne_of_lt (h e he)
  rw [hf]
  rfl

/-- The invariant of the robust client's line loop: every emitted event
id is below the counter, the open call (if any) is executing with
exactly its start event emitted, and every per-id history is a legal
lifecycle sequence. -/
def RInv (st : RState) (evs : List ToolCall) : Prop :=
  (∀ e ∈ evs, e.id < st.nextId) ∧
  (∀ tc, st.current = some tc →
     tc.status = ToolStatus.executing ∧ tc.id < st.nextId ∧
     statusesFor tc.id evs = [ToolStatus.executing]) ∧
  (∀ id, OkSeq (statusesFor id evs))

theorem completeToolCall_status (tc : ToolCall) (t : Chars) :
    (completeToolCall tc t).status = ToolStatus.completed ∨
    (completeToolCall tc t).status = ToolStatus.failed := by
  unfold completeToolCall
  dsimp only
  split <;> simp

theorem RInv_start (st : RState) (evs : List ToolCall) (tc : ToolCall)
    (hid : tc.id = st.nextId) (hst : tc.status = ToolStatus.executing)
    (h : RInv st evs) :
    RInv ⟨some tc, st.nextId + 1⟩ (evs ++ [tc]) := by
  obtain ⟨h1, _, h3⟩ := h
  refine ⟨?_, ?_, ?_⟩
  · intro e he
    rcases List.mem_append.mp he with he | he
    · exact Nat.lt_succ_of_lt (h1 e he)
    · rw [List.mem_singleton.mp he, hid]
      exact Nat.lt_succ_self _
  · intro tc' htc
    have htc2 : some tc = some tc' := htc
    obtain rfl := Option.some.inj htc2
    refine ⟨hst, by rw [hid]; exact Nat.lt_succ_self _, ?_⟩
    rw [statusesFor_append, statusesFor_fresh _ _ (by rw [hid]; exact h1)]
    simp [statusesFor, hst]
  · intro id
    by_cases hid' : id = st.nextId
    · subst hid'
      rw [statusesFor_append, statusesFor_fresh _ _ h1]
      right; left
      simp [statusesFor, hid, hst]
    · rw [statusesFor_append]
      have hne : ¬ tc.id = id := by
        rw [hid]
        exact fun hh => hid' hh.symm
      have hnil : statusesFor id [tc] = [] := by
        simp [statusesFor, hne]
      rw [hnil, List.append_nil]
      exact h3 id

theorem RInv_end (st : RState) (evs : List ToolCall) (cur : ToolCall) (t : Chars)
    (hcur : st.current = some cur) (h : RInv st evs) :
    RInv ⟨none, st.nextId⟩ (evs ++ [completeToolCall cur t]) := by
  obtain ⟨h1, h2, h3⟩ := h
  obtain ⟨_, hlt, hseq⟩ := h2 cur hcur
  refine ⟨?_, ?_, ?_⟩
  · intro e he
    rcases List.mem_append.mp he with he | he
    · exact h1 e he
    · rw [List.mem_singleton.mp he]
      exact hlt
  · intro tc htc
    exact absurd htc (by simp)
  · intro id
    have hcid : (completeToolCall cur t).id = cur.id := rfl
    by_cases hid : id = cur.id
    · subst hid
      rw [statusesFor_append, hseq]
      have hone : statusesFor cur.id [completeToolCall cur t] =
          [(completeToolCall cur t).status] := by
        simp [statusesFor, hcid]
      rw [hone]
      rcases completeToolCall_status cur t with hs | hs
      · right; right; left
        rw [hs]
        rfl
      · right; right; right
        rw [hs]
        rfl
    · rw [statusesFor_append]
      have hne : ¬ (completeToolCall cur t).id = id := by
        rw [hcid]
        exact fun hh => hid hh.symm
      have hnil : statusesFor id [completeToolCall cur t] = [] := by
        simp [statusesFor, hne]
      rw [hnil, List.append_nil]
      exact h3 id

theorem procLine_inv (st : RState) (l : Chars) (evs : List ToolCall)
    (h : RInv st evs) :
    RInv (procLine st l).1 (evs ++ (procLine st l).2) := by
  unfold procLine
  dsimp only
  split
  · rw [List.append_nil]
    exact h
  · split
    · exact RInv_start st evs _ rfl rfl h
    · split
      · rename_i cur hcur
        split
        · exact RInv_end st evs cur _ hcur h
        · rw [List.append_nil]
          exact h
      · rw [List.append_nil]
        exact h

theorem procLines_inv (ls : List Chars) (st : RState) (evs : List ToolCall)
    (h : RInv st evs) :
    RInv (procLines st ls).1 (evs ++ (procLines st ls).2) := by
  induction ls generalizing st evs with
  | nil =>
      unfold procLines
      rw [List.append_nil]
      exact h
  | cons a ls ih =>
      unfold procLines
      dsimp only
      rw [← List.append_assoc]
      exact ih _ _ (procLine_inv st a evs h)

theorem procChunk_inv (st : RState) (buf chunk : Chars) (evs : List ToolCall)
    (h : RInv st evs) :
    RInv (procChunk st buf chunk).1 (evs ++ (procChunk st buf chunk).2.2) := by
  unfold procChunk
  dsimp only
  split
  · exact procLines_inv _ _ _ h
  · rw [List.append_nil]
    exact h

theorem runRobustGo_ok (id : Nat) (cs : List String) (st : RState) (buf : Chars)
    (evs : List ToolCall) (h : RInv st evs) :
    OkSeq (statusesFor id (evs ++ runRobustGo st buf cs)) := by
  induction cs generalizing st buf evs with
  | nil =>
      unfold runRobustGo
      split
      · rw [List.append_nil]
        exact h.2.2 id
      · exact (procLine_inv st buf evs h).2.2 id
  | cons c cs ih =>
      unfold runRobustGo
      dsimp only
      rw [← List.append_assoc]
      exact ih _ _ _ (procChunk_inv st buf c.data evs h)

/-- C8: over every chunked input stream, the robust client's emitted
status history for each tool-call id is a subsequence of the lifecycle
executing then completed-or-failed: empty, just executing, or executing
followed by exactly one terminal status — never reordered, never
backward, never mutated after a terminal status. -/
theorem c8_status_lifecycle (chunks : List String) (id : Nat) :
    OkSeq (statusesFor id (runRobust chunks)) := by
  have hinit : RInv ⟨none, 0⟩ [] := by
    refine ⟨by simp, by simp, fun i => Or.inl ?_⟩
    simp [statusesFor]
  have h := runRobustGo_ok id chunks ⟨none, 0⟩ [] [] hinit
  simpa [runRobust] using h

end CQT
